import Mathlib

/-!
Verification development for the Canvas → Notion reconciliation scripts.

The definitions below are a shallow embedding of the Python sources:
`canvas_notion_sync.py` (the indexed reconciliation engine with the
five-state status resolver), `Canvas_Notion.py` (the schema-aware field
mapper and upsert), and `canvas_to_notion_oauth.py` (the OAuth deployment
variant with the 401 refresh-and-retry on the query call).  Network
responses are modelled as explicit oracles, and Python dictionaries as
association lists with replace-in-place insertion.
-/

set_option autoImplicit false

/-! ## Python-dict model: association lists with replace-in-place insert -/

/-- Lookup in an association list, first match wins (Python `d[k]` /
`d.get(k)` on a dict whose keys are unique). -/
def dictLookup {α : Type} : List (String × α) → String → Option α
  | [], _ => none
  | (k, v) :: rest, key => if k = key then some v else dictLookup rest key

/-- Python dict assignment `d[k] = v`: replace the value in place if the
key is present, otherwise append the binding at the end. -/
def dictInsert {α : Type} : List (String × α) → String → α → List (String × α)
  | [], k, v => [(k, v)]
  | (k₀, v₀) :: rest, k, v =>
      if k₀ = k then (k, v) :: rest else (k₀, v₀) :: dictInsert rest k v

/-- The keys of an association list, in insertion order. -/
def dictKeys {α : Type} (m : List (String × α)) : List String :=
  m.map Prod.fst

@[simp] theorem dictKeys_nil {α : Type} : dictKeys ([] : List (String × α)) = [] := rfl

@[simp] theorem dictKeys_cons {α : Type} (p : String × α) (m : List (String × α)) :
    dictKeys (p :: m) = p.1 :: dictKeys m := rfl

theorem dictLookup_insert_self {α : Type} (m : List (String × α)) (k : String) (v : α) :
    dictLookup (dictInsert m k v) k = some v := by
  induction m with
  | nil => simp [dictInsert, dictLookup]
  | cons p rest ih =>
      obtain ⟨k₀, v₀⟩ := p
      by_cases h : k₀ = k
      · simp [dictInsert, h, dictLookup]
      · simp [dictInsert, h, dictLookup, ih]

theorem dictLookup_insert_ne {α : Type} (m : List (String × α)) (k k' : String) (v : α)
    (h : k' ≠ k) : dictLookup (dictInsert m k v) k' = dictLookup m k' := by
  induction m with
  | nil => simp [dictInsert, dictLookup, Ne.symm h]
  | cons p rest ih =>
      obtain ⟨k₀, v₀⟩ := p
      by_cases h₀ : k₀ = k
      · subst h₀
        simp [dictInsert, dictLookup, Ne.symm h]
      · simp [dictInsert, h₀, dictLookup, ih]

theorem mem_dictKeys_insert {α : Type} (m : List (String × α)) (k k' : String) (v : α) :
    k' ∈ dictKeys (dictInsert m k v) ↔ k' ∈ dictKeys m ∨ k' = k := by
  induction m with
  | nil => simp [dictInsert]
  | cons p rest ih =>
      obtain ⟨k₀, v₀⟩ := p
      by_cases h : k₀ = k
      · subst h
        simp only [dictInsert, if_pos rfl, dictKeys_cons]
        simp
        tauto
      · simp only [dictInsert, if_neg h, dictKeys_cons]
        simp [ih]
        tauto

theorem length_dictInsert_of_mem {α : Type} (m : List (String × α)) (k : String) (v : α)
    (h : k ∈ dictKeys m) : (dictInsert m k v).length = m.length := by
  induction m with
  | nil => simp at h
  | cons p rest ih =>
      obtain ⟨k₀, v₀⟩ := p
      by_cases h₀ : k₀ = k
      · simp [dictInsert, h₀]
      · simp only [dictKeys_cons, List.mem_cons] at h
        rcases h with h | h
        · exact absurd h.symm h₀
        · simp [dictInsert, h₀, ih h]

theorem length_dictInsert_of_not_mem {α : Type} (m : List (String × α)) (k : String) (v : α)
    (h : k ∉ dictKeys m) : (dictInsert m k v).length = m.length + 1 := by
  induction m with
  | nil => simp [dictInsert]
  | cons p rest ih =>
      obtain ⟨k₀, v₀⟩ := p
      simp only [dictKeys_cons, List.mem_cons] at h
      push_neg at h
      simp [dictInsert, Ne.symm h.1, ih h.2]

theorem dictLookup_eq_none_iff {α : Type} (m : List (String × α)) (k : String) :
    dictLookup m k = none ↔ k ∉ dictKeys m := by
  induction m with
  | nil => simp [dictLookup]
  | cons p rest ih =>
      obtain ⟨k₀, v₀⟩ := p
      by_cases h : k₀ = k
      · simp [dictLookup, h]
      · simp [dictLookup, h, ih, Ne.symm h]

theorem dictLookup_isSome_iff {α : Type} (m : List (String × α)) (k : String) :
    (dictLookup m k).isSome ↔ k ∈ dictKeys m := by
  rcases h : dictLookup m k with _ | v
  · simpa [h] using (dictLookup_eq_none_iff m k).mp h
  · simp only [Option.isSome_some, true_iff]
    by_contra hk
    rw [(dictLookup_eq_none_iff m k).mpr hk] at h
    exact Option.noConfusion h

/-! ## Status Resolver (`CanvasNotionSync.determine_assignment_status`) -/

/-- A Canvas submission object as consumed by the status resolver.  The
fields are `Option`-valued because the Python code reads them with
`dict.get` and supplies defaults (`''` for `workflow_state`, `False` for
`late`); `submitted_at` may be `None`. -/
structure Submission where
  workflow_state : Option String
  submitted_at : Option String
  late : Option Bool
  deriving Repr, DecidableEq

/-- Python truthiness of an optional string: `None` and `''` are falsy. -/
def strTruthy : Option String → Bool
  | none => false
  | some s => s ≠ ""

/-- `CanvasNotionSync.determine_assignment_status`: derive the
five-state status from the submission signal (or its absence). -/
def determine_assignment_status (submission : Option Submission) : String :=
  match submission with
  | none => "Not Started"
  | some s =>
      let workflow_state := s.workflow_state.getD ""
      let submitted_at := s.submitted_at
      if strTruthy submitted_at ∧ workflow_state = "submitted" then "Completed"
      else if workflow_state = "pending_review" then "Submitted - Pending Review"
      else if s.late.getD false then "Late Submission"
      else "In Progress"

example : determine_assignment_status none = "Not Started" := by decide
example :
    determine_assignment_status (some ⟨some "pending_review", none, some true⟩) =
      "Submitted - Pending Review" := by decide
example :
    determine_assignment_status (some ⟨some "submitted", some "2024-01-01", some true⟩) =
      "Completed" := by decide

/-! ## Date normalization (`CanvasNotionSync.format_date_for_notion`)

`format_date_for_notion` parses the Canvas timestamp with
`datetime.fromisoformat` after rewriting a trailing `Z` into `+00:00`,
and re-emits it with `datetime.isoformat`.  The parser below models
CPython's `fromisoformat` (strict `YYYY-MM-DD[<sep>HH[:MM[:SS[.fff[fff]]]]][±HH:MM]`
grammar with calendar validation); a parse failure is the `none` that the
Python `except` clause turns into `None`. -/

structure PyDateTime where
  year : Nat
  month : Nat
  day : Nat
  hour : Nat
  minute : Nat
  second : Nat
  microsecond : Nat
  /-- timezone offset: (is-negative, hours, minutes), absent for naive datetimes -/
  tzOffset : Option (Bool × Nat × Nat)
  deriving Repr, DecidableEq

def digitVal (c : Char) : Option Nat :=
  if c.isDigit then some (c.toNat - 48) else none

def twoDigits (a b : Char) : Option Nat := do
  let x ← digitVal a
  let y ← digitVal b
  pure (10 * x + y)

def fourDigits (a b c d : Char) : Option Nat := do
  let x ← twoDigits a b
  let y ← twoDigits c d
  pure (100 * x + y)

def isLeapYear (y : Nat) : Bool :=
  (y % 4 == 0 && y % 100 != 0) || y % 400 == 0

def daysInMonth (y m : Nat) : Nat :=
  if m = 2 then (if isLeapYear y then 29 else 28)
  else if m = 4 ∨ m = 6 ∨ m = 9 ∨ m = 11 then 30
  else 31

/-- Parse the mandatory `YYYY-MM-DD` date portion, with calendar validation. -/
def parseDateChars : List Char → Option (Nat × Nat × Nat)
  | [y1, y2, y3, y4, c1, m1, m2, c2, d1, d2] => do
      if c1 = '-' ∧ c2 = '-' then
        let y ← fourDigits y1 y2 y3 y4
        let m ← twoDigits m1 m2
        let d ← twoDigits d1 d2
        if 1 ≤ m ∧ m ≤ 12 ∧ 1 ≤ d ∧ d ≤ daysInMonth y m then pure (y, m, d) else none
      else none
  | _ => none

/-- Split the time string at the first `+`/`-`, separating the clock part
from the timezone designator. -/
def splitAtSign : List Char → List Char × Option (Char × List Char)
  | [] => ([], none)
  | c :: rest =>
      if c = '+' ∨ c = '-' then ([], some (c, rest))
      else
        let (pre, tz) := splitAtSign rest
        (c :: pre, tz)

/-- Fractional seconds: exactly 3 or 6 digits, scaled to microseconds. -/
def parseFraction : List Char → Option Nat
  | [a, b, c] => do
      let x ← twoDigits a b
      let y ← digitVal c
      pure ((10 * x + y) * 1000)
  | [a, b, c, d, e, f] => do
      let x ← fourDigits a b c d
      let y ← twoDigits e f
      pure (100 * x + y)
  | _ => none

/-- Parse `HH`, `HH:MM`, `HH:MM:SS` or `HH:MM:SS.fff[fff]`. -/
def parseHMS : List Char → Option (Nat × Nat × Nat × Nat)
  | [h1, h2] => do
      let h ← twoDigits h1 h2
      if h ≤ 23 then pure (h, 0, 0, 0) else none
  | [h1, h2, ':', m1, m2] => do
      let h ← twoDigits h1 h2
      let m ← twoDigits m1 m2
      if h ≤ 23 ∧ m ≤ 59 then pure (h, m, 0, 0) else none
  | [h1, h2, ':', m1, m2, ':', s1, s2] => do
      let h ← twoDigits h1 h2
      let m ← twoDigits m1 m2
      let s ← twoDigits s1 s2
      if h ≤ 23 ∧ m ≤ 59 ∧ s ≤ 59 then pure (h, m, s, 0) else none
  | h1 :: h2 :: ':' :: m1 :: m2 :: ':' :: s1 :: s2 :: '.' :: frac => do
      let h ← twoDigits h1 h2
      let m ← twoDigits m1 m2
      let s ← twoDigits s1 s2
      let us ← parseFraction frac
      if h ≤ 23 ∧ m ≤ 59 ∧ s ≤ 59 then pure (h, m, s, us) else none
  | _ => none

/-- Model of `datetime.fromisoformat` (CPython's pre-3.11 strict grammar:
ten date characters, an arbitrary single separator character, then the
time and optional `±HH:MM` offset). -/
def fromisoformat (s : String) : Option PyDateTime :=
  match s.data with
  | [y1, y2, y3, y4, c1, m1, m2, c2, d1, d2] => do
      let (y, m, d) ← parseDateChars [y1, y2, y3, y4, c1, m1, m2, c2, d1, d2]
      pure ⟨y, m, d, 0, 0, 0, 0, none⟩
  | y1 :: y2 :: y3 :: y4 :: c1 :: m1 :: m2 :: c2 :: d1 :: d2 :: _sep :: timeCs => do
      let (y, m, d) ← parseDateChars [y1, y2, y3, y4, c1, m1, m2, c2, d1, d2]
      let (clockCs, tzPart) := splitAtSign timeCs
      let (h, mi, sec, us) ← parseHMS clockCs
      match tzPart with
      | none => pure ⟨y, m, d, h, mi, sec, us, none⟩
      | some (sign, tzCs) =>
          match tzCs with
          | [a, b, ':', c, d₂] => do
              let th ← twoDigits a b
              let tm ← twoDigits c d₂
              if th ≤ 23 ∧ tm ≤ 59 then
                pure ⟨y, m, d, h, mi, sec, us, some (sign = '-', th, tm)⟩
              else none
          | _ => none
  | _ => none

/-- Left-pad a numeral with zeros. -/
def padNum (width n : Nat) : String :=
  let s := toString n
  if s.length < width then String.mk (List.replicate (width - s.length) '0') ++ s else s

/-- Model of `datetime.isoformat`: `YYYY-MM-DDTHH:MM:SS[.ffffff][±HH:MM]`. -/
def pyIsoformat (dt : PyDateTime) : String :=
  padNum 4 dt.year ++ "-" ++ padNum 2 dt.month ++ "-" ++ padNum 2 dt.day ++ "T" ++
  padNum 2 dt.hour ++ ":" ++ padNum 2 dt.minute ++ ":" ++ padNum 2 dt.second ++
  (if dt.microsecond ≠ 0 then "." ++ padNum 6 dt.microsecond else "") ++
  (match dt.tzOffset with
   | none => ""
   | some (neg, th, tm) => (if neg then "-" else "+") ++ padNum 2 th ++ ":" ++ padNum 2 tm)

/-- `date_str.replace('Z', '+00:00')`: every occurrence of the character
`Z` becomes the six-character UTC offset designator. -/
def replaceZWithOffset (s : String) : String :=
  ⟨s.data.foldr
    (fun c acc => if c = 'Z' then '+' :: '0' :: '0' :: ':' :: '0' :: '0' :: acc else c :: acc)
    []⟩

/-- `CanvasNotionSync.format_date_for_notion`: `None`/empty input yields
`None`; otherwise `Z` is rewritten to `+00:00`, the string is parsed, and
a parse failure is absorbed into `None` by the `except` clause. -/
def format_date_for_notion (date_str : Option String) : Option String :=
  match date_str with
  | none => none
  | some s =>
      if s = "" then none
      else
        match fromisoformat (replaceZWithOffset s) with
        | some dt => some (pyIsoformat dt)
        | none => none

example : format_date_for_notion (some "2024-05-01T10:00:00Z") =
    some "2024-05-01T10:00:00+00:00" := by decide
example : format_date_for_notion (some "not-a-date") = none := by decide
example : format_date_for_notion (some "2024-13-40") = none := by decide
example : format_date_for_notion (some "2024-05-01") = some "2024-05-01T00:00:00" := by decide

/-! ## Source items and the Field Mapper of `canvas_notion_sync.py` -/

/-- A Canvas assignment as consumed by `sync_assignments`: `due_at`,
`points_possible` and `description` are read with `dict.get` and may be
missing/null. -/
structure Assignment where
  id : Nat
  name : String
  due_at : Option String
  points_possible : Option Int
  html_url : String
  description : String
  deriving Repr, DecidableEq

/-- The `assignment_data` dict assembled in `sync_assignments`
(lines 268–277). -/
structure AssignmentData where
  id : Nat
  name : String
  course_name : String
  due_date : Option String
  status : String
  points_possible : Option Int
  html_url : String
  description : String
  deriving Repr, DecidableEq

/-- Build `assignment_data` for one item: normalize the due date and
resolve the status from the submission signal. -/
def mkAssignmentData (course_name : String) (submission : Option Submission)
    (a : Assignment) : AssignmentData :=
  { id := a.id
    name := a.name
    course_name := course_name
    due_date := format_date_for_notion a.due_at
    status := determine_assignment_status submission
    points_possible := a.points_possible
    html_url := a.html_url
    description := a.description }

/-- A Notion property value, by field kind. -/
inductive PropValue where
  | title (content : String)
  | richText (contents : List String)
  | date (start : Option String)
  | select (name : String)
  | number (value : Option Int)
  | url (value : String)
  deriving Repr, DecidableEq

/-- Python `s[:n]`: the first `n` characters of a string. -/
def pySlice (s : String) (n : Nat) : String :=
  ⟨s.data.take n⟩

/-- The property bag sent by `CanvasNotionSync.create_notion_page`
(lines 111–164): all eight fields, unconditionally.  The `Description`
rich text is the first 2000 characters, or an empty rich-text array when
the description is falsy. -/
def createProps (d : AssignmentData) : List (String × PropValue) :=
  [("Assignment Name", .title d.name),
   ("Course", .richText [d.course_name]),
   ("Due Date", .date d.due_date),
   ("Status", .select d.status),
   ("Points", .number d.points_possible),
   ("Canvas URL", .url d.html_url),
   ("Canvas ID", .richText [toString d.id]),
   ("Description", .richText (if d.description ≠ "" then [pySlice d.description 2000] else []))]

/-- The property bag sent by `CanvasNotionSync.update_notion_page`
(lines 213–226): only `Status` and `Due Date`. -/
def updateProps (d : AssignmentData) : List (String × PropValue) :=
  [("Status", .select d.status),
   ("Due Date", .date d.due_date)]

/-- A row of the Notion database: the opaque page id assigned by the
store and the property bag. -/
structure NotionPage where
  pageId : Nat
  props : List (String × PropValue)
  deriving Repr, DecidableEq

/-- Reading a page's `Canvas ID` property as `get_existing_notion_assignments`
does (lines 195–197): take the first rich-text fragment's content, or
nothing when the property is absent or its rich-text array is empty. -/
def pageCanvasId (p : NotionPage) : Option String :=
  match dictLookup p.props "Canvas ID" with
  | some (.richText (c :: _)) => some c
  | _ => none

/-- The page created for an item by `create_notion_page`. -/
def createPage (pid : Nat) (d : AssignmentData) : NotionPage :=
  ⟨pid, createProps d⟩

/-- A PATCH of a property bag onto a page's existing properties:
mentioned keys are overwritten, others kept. -/
def patchProps (props upd : List (String × PropValue)) : List (String × PropValue) :=
  upd.foldl (fun ps kv => dictInsert ps kv.1 kv.2) props

/-! ## Paginated index construction (`get_existing_notion_assignments`) -/

/-- Process one page of query results (the body of the `for page in
data.get('results', [])` loop): record `canvas_id → page id` when the
`Canvas ID` rich text is nonempty. -/
def processPage (m : List (String × Nat)) (p : NotionPage) : List (String × Nat) :=
  match pageCanvasId p with
  | some cid => dictInsert m cid p.pageId
  | none => m

/-- The `while has_more` loop of `get_existing_notion_assignments`: the
store answers each request with one chunk of results, `has_more` is true
exactly while chunks remain, and every chunk is accumulated into the one
dictionary before the function returns. -/
def get_existing_notion_assignments :
    List (List NotionPage) → List (String × Nat) → List (String × Nat)
  | [], m => m
  | chunk :: rest, m => get_existing_notion_assignments rest (chunk.foldl processPage m)

/-- The identity index over a store held in a single chunk (the engine's
view of the fully accumulated index). -/
def buildIndex (store : List NotionPage) : List (String × Nat) :=
  get_existing_notion_assignments [store] []

/-! ## Reconciliation engine (`CanvasNotionSync.sync_assignments`) -/

/-- A course together with the assignments the source adapter returns
for it. -/
structure Course where
  id : Nat
  name : String
  assignments : List Assignment
  deriving Repr, DecidableEq

/-- One outbound call to the target store: the POST of
`create_notion_page` or the PATCH of `update_notion_page`, recorded with
the canvas id being synced. -/
inductive SyncOp where
  | createOp (canvasId : String)
  | updateOp (pageId : Nat) (canvasId : String)
  deriving Repr, DecidableEq

def isCreateOp : SyncOp → Bool
  | .createOp _ => true
  | _ => false

def isUpdateOp : SyncOp → Bool
  | .updateOp _ _ => true
  | _ => false

/-- The engine's run state: the target store plus the three counters of
`sync_assignments` and the trace of outbound target-store calls. -/
structure SyncState where
  store : List NotionPage
  total : Nat
  created : Nat
  updated : Nat
  trace : List SyncOp
  deriving Repr, DecidableEq

/-- The external collaborators, as oracles: whether the create/update
HTTP call for a given assignment id succeeds, and the submission signal
`get_assignment_submission` returns for `(course_id, assignment_id)`. -/
structure SyncEnv where
  createOk : Nat → Bool
  updateOk : Nat → Bool
  subs : Nat → Nat → Option Submission

/-- A fresh page id for a record created by the target store. -/
def freshPageId (store : List NotionPage) : Nat :=
  (store.map NotionPage.pageId).foldr max 0 + 1

/-- `update_notion_page` server effect: PATCH the update bag onto the
page with the given id. -/
def applyUpdate (store : List NotionPage) (pid : Nat) (d : AssignmentData) :
    List NotionPage :=
  store.map (fun p => if p.pageId = pid then ⟨p.pageId, patchProps p.props (updateProps d)⟩ else p)

/-- The body of the per-assignment loop of `sync_assignments`
(lines 261–291): bump the total, build `assignment_data`, look the canvas
id up in the index built at the start of the run, and either PATCH the
matched page or POST a new one; a failed call leaves the counters and the
store unchanged and processing continues. -/
def syncStep (env : SyncEnv) (index : List (String × Nat)) (course_id : Nat)
    (course_name : String) (st : SyncState) (a : Assignment) : SyncState :=
  let st := { st with total := st.total + 1 }
  let submission := env.subs course_id a.id
  let d := mkAssignmentData course_name submission a
  let canvas_id := toString a.id
  match dictLookup index canvas_id with
  | some pid =>
      let st := { st with trace := st.trace ++ [.updateOp pid canvas_id] }
      if env.updateOk a.id then
        { st with store := applyUpdate st.store pid d, updated := st.updated + 1 }
      else st
  | none =>
      let st := { st with trace := st.trace ++ [.createOp canvas_id] }
      if env.createOk a.id then
        { st with
            store := st.store ++ [createPage (freshPageId st.store) d]
            created := st.created + 1 }
      else st

/-- The inner `for assignment in assignments` loop. -/
def runItems (env : SyncEnv) (index : List (String × Nat)) (course_id : Nat)
    (course_name : String) (st : SyncState) (items : List Assignment) : SyncState :=
  items.foldl (syncStep env index course_id course_name) st

/-- The outer `for course in courses` loop. -/
def runCourses (env : SyncEnv) (index : List (String × Nat)) (st : SyncState)
    (courses : List Course) : SyncState :=
  courses.foldl (fun st c => runItems env index c.id c.name st c.assignments) st

/-- One full `sync_assignments` run: build the identity index from the
current target store, then process every course against that fixed
index. -/
def runSync (env : SyncEnv) (store : List NotionPage) (courses : List Course) : SyncState :=
  let index := buildIndex store
  runCourses env index ⟨store, 0, 0, 0, []⟩ courses

/-- The run summary printed at the end of `sync_assignments`
(lines 294–296): total processed, created, updated — and nothing else. -/
def runSummary (st : SyncState) : List (String × Nat) :=
  [("total", st.total), ("created", st.created), ("updated", st.updated)]

/-! ## Schema-aware field mapper (`Canvas_Notion.py`) -/

/-- A Canvas assignment as consumed by `Canvas_Notion.py`:
`has_submitted_submissions` is read with `dict.get` and may be missing. -/
structure CNAssignment where
  id : Nat
  name : String
  due_at : Option String
  has_submitted_submissions : Option Bool
  html_url : String
  deriving Repr, DecidableEq

/-- `Canvas_Notion.build_payload`: emit each of the six known fields only
when the database schema declares a property of that name.  The schema is
its set of property names. -/
def build_payload (assignment : CNAssignment) (course_name : String)
    (schema : List String) : List (String × PropValue) :=
  let canvas_id := toString assignment.id
  let due_date := assignment.due_at
  let status :=
    if assignment.has_submitted_submissions.getD false then "Completed" else "Pending"
  (if "Assignment Name" ∈ schema then [("Assignment Name", PropValue.title assignment.name)] else []) ++
  (if "Course" ∈ schema then [("Course", PropValue.richText [course_name])] else []) ++
  (if "Due Date" ∈ schema then [("Due Date", PropValue.date due_date)] else []) ++
  (if "Status" ∈ schema then [("Status", PropValue.select status)] else []) ++
  (if "Canvas URL" ∈ schema then [("Canvas URL", PropValue.url assignment.html_url)] else []) ++
  (if "Canvas ID" ∈ schema then [("Canvas ID", PropValue.richText [canvas_id])] else [])

/-- The outbound Notion call chosen by `Canvas_Notion.upsert_assignment`. -/
inductive UpsertCall where
  | patchPage (pageId : String) (payload : List (String × PropValue))
  | postPage (payload : List (String × PropValue))
  deriving Repr, DecidableEq

/-- `Canvas_Notion.upsert_assignment`: build the payload once, then PATCH
the mapped page when the canvas id is in `notion_map`, otherwise POST a
new page — the same full payload in both branches. -/
def upsert_assignment (assignment : CNAssignment) (course_name : String)
    (notion_map : List (String × String)) (schema : List String) : UpsertCall :=
  let payload := build_payload assignment course_name schema
  let canvas_id := toString assignment.id
  match dictLookup notion_map canvas_id with
  | some notion_page_id => .patchPage notion_page_id payload
  | none => .postPage payload

/-! ## OAuth deployment variant (`canvas_to_notion_oauth.py`) -/

/-- The persisted access/refresh token pair. -/
structure TokenData where
  access_token : String
  refreshToken : String
  deriving Repr, DecidableEq

/-- The Notion side as an oracle: status codes answered to each request
as a function of the bearer token used, the refresh outcome for a given
refresh token (`none` models a non-success `oauth/token` response, which
`refresh_token` turns into an exception), and the query result. -/
structure OAuthWorld where
  queryStatus : String → Nat
  queryResult : String → String → Option String
  patchStatus : String → Nat
  postStatus : String → Nat
  refreshResult : String → Option TokenData

/-- One observable outbound call of the OAuth variant. -/
inductive OAuthOp where
  | queryCall (token : String)
  | refreshCall
  | patchCall (token : String)
  | postCall (token : String)
  deriving Repr, DecidableEq

def isRefreshCall : OAuthOp → Bool
  | .refreshCall => true
  | _ => false

/-- `notion_find_page_by_canvas_id`: POST the filter query; on a 401
refresh once and retry once with the new token; then `raise_for_status`.
Returns the trace of outbound calls and either the found page id or the
surfaced HTTP/refresh failure (the status code of the failing call). -/
def notion_find_page_by_canvas_id (w : OAuthWorld) (canvas_id : String)
    (token_data : TokenData) : List OAuthOp × Except Nat (Option String) :=
  let s₁ := w.queryStatus token_data.access_token
  if s₁ = 401 then
    match w.refreshResult token_data.refreshToken with
    | none =>
        ([.queryCall token_data.access_token, .refreshCall], .error 401)
    | some td =>
        let s₂ := w.queryStatus td.access_token
        let trace := [.queryCall token_data.access_token, .refreshCall, .queryCall td.access_token]
        if 400 ≤ s₂ then (trace, .error s₂)
        else (trace, .ok (w.queryResult td.access_token canvas_id))
  else if 400 ≤ s₁ then ([.queryCall token_data.access_token], .error s₁)
  else ([.queryCall token_data.access_token], .ok (w.queryResult token_data.access_token canvas_id))

/-- `notion_create_or_update`: find the existing page (with the query's
refresh-and-retry), then PATCH or POST **with the caller's original
token and no 401 handling** — `raise_for_status` surfaces any failure of
that second call directly. -/
def notion_create_or_update (w : OAuthWorld) (assignment_id : Nat)
    (token_data : TokenData) : List OAuthOp × Except Nat Unit :=
  let (t₁, found) := notion_find_page_by_canvas_id w (toString assignment_id) token_data
  match found with
  | .error e => (t₁, .error e)
  | .ok existing_page =>
      match existing_page with
      | some _pid =>
          let s := w.patchStatus token_data.access_token
          (t₁ ++ [.patchCall token_data.access_token],
           if 400 ≤ s then .error s else .ok ())
      | none =>
          let s := w.postStatus token_data.access_token
          (t₁ ++ [.postCall token_data.access_token],
           if 400 ≤ s then .error s else .ok ())

/-! ## C3: Status Resolver precedence -/

/-- **C3.** For every SubmissionSignal input the resolver returns exactly
the status of the first matching rule, in order: absent signal → Not
Started; submission timestamp present and workflow state `submitted` →
Completed; workflow state `pending_review` → Submitted - Pending Review;
late flag → Late Submission; otherwise → In Progress.  In particular a
late + pending-review signal resolves to Submitted - Pending Review. -/
theorem C3_status_precedence (submission : Option Submission) :
    (submission = none → determine_assignment_status submission = "Not Started") ∧
    (∀ s, submission = some s →
      (strTruthy s.submitted_at = true → s.workflow_state.getD "" = "submitted" →
        determine_assignment_status submission = "Completed") ∧
      (s.workflow_state.getD "" = "pending_review" →
        determine_assignment_status submission = "Submitted - Pending Review") ∧
      (s.late.getD false = true → s.workflow_state.getD "" ≠ "pending_review" →
        ¬(strTruthy s.submitted_at = true ∧ s.workflow_state.getD "" = "submitted") →
        determine_assignment_status submission = "Late Submission") ∧
      (s.late.getD false = false → s.workflow_state.getD "" ≠ "pending_review" →
        ¬(strTruthy s.submitted_at = true ∧ s.workflow_state.getD "" = "submitted") →
        determine_assignment_status submission = "In Progress")) := by
  constructor
  · rintro rfl
    rfl
  · rintro s rfl
    refine ⟨?_, ?_, ?_, ?_⟩
    · intro h1 h2
      simp [determine_assignment_status, h1, h2]
    · intro h
      have hne : ¬(strTruthy s.submitted_at = true ∧ s.workflow_state.getD "" = "submitted") := by
        rintro ⟨-, h2⟩
        rw [h] at h2
        exact absurd h2 (by decide)
      simp only [determine_assignment_status]
      rw [if_neg (by simpa using hne), if_pos h]
    · intro hl hpr h2
      simp only [determine_assignment_status]
      rw [if_neg (by simpa using h2), if_neg hpr, if_pos hl]
    · intro hl hpr h2
      simp only [determine_assignment_status]
      rw [if_neg (by simpa using h2), if_neg hpr, if_neg (by simp [hl])]

/-- Witness for C3: the late + pending-review signal resolves to
Submitted - Pending Review, and the absent signal to Not Started. -/
theorem C3_status_precedence_witness :
    determine_assignment_status (some ⟨some "pending_review", none, some true⟩) =
      "Submitted - Pending Review" ∧
    determine_assignment_status none = "Not Started" :=
  ⟨((C3_status_precedence (some ⟨some "pending_review", none, some true⟩)).2 _ rfl).2.1 rfl,
   (C3_status_precedence none).1 rfl⟩

/-! ## C8: Description truncation to 2000 characters -/

/-- **C8.** The `Description` rich text emitted by `create_notion_page`
is the first 2000 characters of the item's description when it is longer
than 2000 characters (with no truncation indicator added), and the whole
description unchanged when it has at most 2000 characters. -/
theorem C8_description_truncation (d : AssignmentData) :
    (2000 < d.description.length →
      dictLookup (createProps d) "Description" =
        some (.richText [pySlice d.description 2000]) ∧
      (pySlice d.description 2000).length = 2000) ∧
    (d.description ≠ "" → d.description.length ≤ 2000 →
      dictLookup (createProps d) "Description" = some (.richText [d.description])) := by
  have hlen : d.description.length = d.description.data.length := rfl
  constructor
  · intro h
    have hne : d.description ≠ "" := by
      intro he
      rw [he] at h
      exact absurd h (by decide)
    constructor
    · simp [createProps, dictLookup, hne]
    · show (d.description.data.take 2000).length = 2000
      rw [List.length_take]
      rw [hlen] at h
      omega
  · intro hne hle
    have htake : d.description.data.take 2000 = d.description.data :=
      List.take_of_length_le (by rw [← hlen]; exact hle)
    have : pySlice d.description 2000 = d.description := by
      simp only [pySlice, htake]
    simp [createProps, dictLookup, hne, this]

/-- Witness for C8: a 5000-character description is emitted as exactly
its first 2000 characters. -/
theorem C8_description_truncation_witness :
    2000 < (String.mk (List.replicate 5000 'a')).length ∧
    dictLookup (createProps ⟨1, "hw", "math", none, "s", none, "u",
        String.mk (List.replicate 5000 'a')⟩) "Description" =
      some (.richText [pySlice (String.mk (List.replicate 5000 'a')) 2000]) ∧
    (pySlice (String.mk (List.replicate 5000 'a')) 2000).length = 2000 := by
  have h : 2000 < (String.mk (List.replicate 5000 'a')).length := by
    show 2000 < (List.replicate 5000 'a').length
    rw [List.length_replicate]
    omega
  exact ⟨h, (C8_description_truncation
    ⟨1, "hw", "math", none, "s", none, "u", String.mk (List.replicate 5000 'a')⟩).1 h⟩

/-! ## C6: Schema-aware omission in the field mapper -/

/-- **C6.** The schema-aware Field Mapper (`build_payload`) emits a
property only for fields declared in the schema; in particular, against
a schema lacking a `Points` field the emitted property bag has no
`Points` entry regardless of the source item's point value. -/
theorem C6_schema_omission (a : CNAssignment) (course_name : String) (schema : List String) :
    (∀ key, key ∈ dictKeys (build_payload a course_name schema) → key ∈ schema) ∧
    ("Points" ∉ schema → "Points" ∉ dictKeys (build_payload a course_name schema)) := by
  have part1 : ∀ key, key ∈ dictKeys (build_payload a course_name schema) → key ∈ schema := by
    intro key hk
    simp only [build_payload, dictKeys, List.map_append, List.mem_append] at hk
    rcases hk with ((((h | h) | h) | h) | h) | h <;>
      · split at h <;> simp_all
  exact ⟨part1, fun hnp hmem => hnp (part1 _ hmem)⟩

/-- Witness for C6: a schema without `Points` yields a payload without
`Points`, for an item that does carry data. -/
theorem C6_schema_omission_witness :
    "Points" ∉ ["Assignment Name", "Due Date", "Status"] ∧
    "Points" ∉ dictKeys (build_payload ⟨5, "hw", some "2024-05-01T00:00:00Z", some true, "u"⟩
      "math" ["Assignment Name", "Due Date", "Status"]) :=
  ⟨by decide,
   (C6_schema_omission ⟨5, "hw", some "2024-05-01T00:00:00Z", some true, "u"⟩
      "math" ["Assignment Name", "Due Date", "Status"]).2 (by decide)⟩

/-! ## C7: properties applied on update -/

/-- **C7 counterexample.** In the engine of `canvas_notion_sync.py` the
bag passed to `update_notion_page` is *not* the full mapped property bag
of `create_notion_page`: for a concrete item it is exactly
`[Status, Due Date]` and omits `Assignment Name` (and five more fields)
that the create bag carries — a strict subset. -/
theorem C7_update_not_full_bag :
    dictKeys (updateProps ⟨1, "hw", "math", none, "Not Started", none, "u", ""⟩) =
      ["Status", "Due Date"] ∧
    "Assignment Name" ∈ dictKeys (createProps ⟨1, "hw", "math", none, "Not Started", none, "u", ""⟩) ∧
    "Assignment Name" ∉ dictKeys (updateProps ⟨1, "hw", "math", none, "Not Started", none, "u", ""⟩) ∧
    updateProps ⟨1, "hw", "math", none, "Not Started", none, "u", ""⟩ ≠
      createProps ⟨1, "hw", "math", none, "Not Started", none, "u", ""⟩ := by
  decide

/-- **C7 amended.** For an item found in the IdentityIndex, the engine of
`canvas_notion_sync.py` PATCHes the matched page with exactly the
`Status` and `Due Date` properties the Field Mapper produced for the
item — the same values as in its create bag, but a strict subset of its
keys; the schema-aware variant (`Canvas_Notion.upsert_assignment`)
PATCHes the matched page with the full mapped payload. -/
theorem C7_update_applies_mapped_subset (d : AssignmentData) :
    dictKeys (updateProps d) = ["Status", "Due Date"] ∧
    dictLookup (updateProps d) "Status" = some (.select d.status) ∧
    dictLookup (createProps d) "Status" = some (.select d.status) ∧
    dictLookup (updateProps d) "Due Date" = some (.date d.due_date) ∧
    dictLookup (createProps d) "Due Date" = some (.date d.due_date) ∧
    (∀ k, k ∈ dictKeys (updateProps d) → k ∈ dictKeys (createProps d)) ∧
    (∀ (a : CNAssignment) (course_name : String) (notion_map : List (String × String))
        (schema : List String) (pid : String),
      dictLookup notion_map (toString a.id) = some pid →
      upsert_assignment a course_name notion_map schema =
        .patchPage pid (build_payload a course_name schema)) := by
  refine ⟨rfl, rfl, ?_, rfl, ?_, ?_, ?_⟩
  · simp [createProps, dictLookup]
  · simp [createProps, dictLookup]
  · intro k hk
    simp only [updateProps, dictKeys_cons, dictKeys_nil, List.mem_cons] at hk
    rcases hk with rfl | hk
    · simp [createProps, dictKeys]
    · simp only [List.not_mem_nil, or_false] at hk
      subst hk
      simp [createProps, dictKeys]
  · intro a course_name notion_map schema pid h
    simp [upsert_assignment, h]

/-- Witness for C7 amended: the schema-aware upsert PATCHes the full
payload for a mapped item. -/
theorem C7_update_applies_mapped_subset_witness :
    upsert_assignment ⟨5, "hw", none, none, "u"⟩ "math" [("5", "pg1")] ["Status"] =
      .patchPage "pg1" (build_payload ⟨5, "hw", none, none, "u"⟩ "math" ["Status"]) :=
  (C7_update_applies_mapped_subset ⟨5, "hw", "math", none, "s", none, "u", ""⟩).2.2.2.2.2.2
    ⟨5, "hw", none, none, "u"⟩ "math" [("5", "pg1")] ["Status"] "pg1" (by decide)

/-! ## C10: malformed dates are absorbed, not fatal -/

/-- **C10.** `format_date_for_notion` totalizes date handling: absent or
empty input yields `none`, any string the ISO parser rejects yields
`none` (the `except` clause), and an item whose due date is malformed is
still processed by the engine — when unmatched it is created, with an
explicitly null `Due Date` property. -/
theorem C10_malformed_dates_absorbed :
    format_date_for_notion none = none ∧
    format_date_for_notion (some "") = none ∧
    (∀ s, fromisoformat (replaceZWithOffset s) = none →
      format_date_for_notion (some s) = none) ∧
    (∀ (env : SyncEnv) (index : List (String × Nat)) (course_id : Nat)
        (course_name : String) (st : SyncState) (a : Assignment) (s : String),
      a.due_at = some s → fromisoformat (replaceZWithOffset s) = none →
      (syncStep env index course_id course_name st a).total = st.total + 1 ∧
      (mkAssignmentData course_name (env.subs course_id a.id) a).due_date = none ∧
      (env.createOk a.id = true → dictLookup index (toString a.id) = none →
        (syncStep env index course_id course_name st a).store =
          st.store ++ [createPage (freshPageId st.store)
            (mkAssignmentData course_name (env.subs course_id a.id) a)] ∧
        dictLookup (createProps (mkAssignmentData course_name (env.subs course_id a.id) a))
          "Due Date" = some (.date none))) := by
  have habsorb : ∀ s, fromisoformat (replaceZWithOffset s) = none →
      format_date_for_notion (some s) = none := by
    intro s h
    by_cases he : s = ""
    · simp [format_date_for_notion, he]
    · simp [format_date_for_notion, he, h]
  refine ⟨rfl, rfl, habsorb, ?_⟩
  intro env index course_id course_name st a s hdue hparse
  have hdd : (mkAssignmentData course_name (env.subs course_id a.id) a).due_date = none := by
    simp [mkAssignmentData, hdue, habsorb s hparse]
  refine ⟨?_, hdd, ?_⟩
  · unfold syncStep
    cases h : dictLookup index (toString a.id) <;> simp [h] <;> split <;> rfl
  · intro hok hnone
    constructor
    · simp [syncStep, hnone, hok]
    · simp [createProps, dictLookup, hdd]

/-- Witness for C10: a concrete malformed due date (`"not-a-date"`) is
absorbed into `none` and the item is still created, carrying a null
due date. -/
theorem C10_malformed_dates_absorbed_witness :
    (syncStep ⟨fun _ => true, fun _ => true, fun _ _ => none⟩ [] 1 "math"
        ⟨[], 0, 0, 0, []⟩ ⟨7, "hw", some "not-a-date", none, "u", ""⟩).total = 0 + 1 ∧
    (mkAssignmentData "math" none ⟨7, "hw", some "not-a-date", none, "u", ""⟩).due_date = none := by
  have h := (C10_malformed_dates_absorbed).2.2.2
    ⟨fun _ => true, fun _ => true, fun _ _ => none⟩ [] 1 "math"
    ⟨[], 0, 0, 0, []⟩ ⟨7, "hw", some "not-a-date", none, "u", ""⟩ "not-a-date" rfl (by decide)
  exact ⟨h.1, h.2.1⟩

/-! ## C9: 401 refresh-and-retry in the OAuth variant -/

/-- **C9 counterexample.** The single refresh-and-retry does **not** hold
for every target-API operation: in a world where the query succeeds but
the PATCH of `notion_create_or_update` answers 401, the client performs
zero refreshes and zero retries — the 401 is surfaced directly. -/
theorem C9_create_update_no_refresh :
    (notion_create_or_update
        ⟨fun _ => 200, fun _ _ => some "pg", fun _ => 401, fun _ => 401, fun _ => none⟩
        5 ⟨"tok", "ref"⟩).1 = [.queryCall "tok", .patchCall "tok"] ∧
    ((notion_create_or_update
        ⟨fun _ => 200, fun _ _ => some "pg", fun _ => 401, fun _ => 401, fun _ => none⟩
        5 ⟨"tok", "ref"⟩).1.countP isRefreshCall = 0) ∧
    (notion_create_or_update
        ⟨fun _ => 200, fun _ _ => some "pg", fun _ => 401, fun _ => 401, fun _ => none⟩
        5 ⟨"tok", "ref"⟩).2 = .error 401 := by
  refine ⟨rfl, by decide, rfl⟩

/-- **C9 amended.** Only the query operation
(`notion_find_page_by_canvas_id`) has the single refresh-and-retry: on a
401 it performs exactly one refresh and (when the refresh succeeds)
exactly one retry, surfacing the retry's failure; a run with no 401 on
the query performs zero refreshes; the PATCH/POST of
`notion_create_or_update` performs no refresh and surfaces its own
failure status directly. -/
theorem C9_single_refresh_on_query (w : OAuthWorld) (canvas_id : String) (aid : Nat)
    (td : TokenData) :
    (w.queryStatus td.access_token = 401 →
      ((notion_find_page_by_canvas_id w canvas_id td).1.countP isRefreshCall = 1) ∧
      (∀ td', w.refreshResult td.refreshToken = some td' →
        (notion_find_page_by_canvas_id w canvas_id td).1 =
          [.queryCall td.access_token, .refreshCall, .queryCall td'.access_token] ∧
        (400 ≤ w.queryStatus td'.access_token →
          (notion_find_page_by_canvas_id w canvas_id td).2 =
            .error (w.queryStatus td'.access_token))) ∧
      (w.refreshResult td.refreshToken = none →
        (notion_find_page_by_canvas_id w canvas_id td).1 =
          [.queryCall td.access_token, .refreshCall] ∧
        (notion_find_page_by_canvas_id w canvas_id td).2 = .error 401)) ∧
    (w.queryStatus td.access_token ≠ 401 →
      (notion_find_page_by_canvas_id w canvas_id td).1.countP isRefreshCall = 0) ∧
    (∀ r, (notion_find_page_by_canvas_id w (toString aid) td).2 = .ok r →
      ((notion_create_or_update w aid td).1.countP isRefreshCall =
        (notion_find_page_by_canvas_id w (toString aid) td).1.countP isRefreshCall) ∧
      (∀ pid, r = some pid → 400 ≤ w.patchStatus td.access_token →
        (notion_create_or_update w aid td).2 = .error (w.patchStatus td.access_token)) ∧
      (r = none → 400 ≤ w.postStatus td.access_token →
        (notion_create_or_update w aid td).2 = .error (w.postStatus td.access_token))) := by
  refine ⟨?_, ?_, ?_⟩
  · intro h401
    refine ⟨?_, ?_, ?_⟩
    · unfold notion_find_page_by_canvas_id
      rw [if_pos h401]
      cases h : w.refreshResult td.refreshToken with
      | none => simp [isRefreshCall]
      | some td' =>
          dsimp only
          split <;> simp [isRefreshCall]
    · intro td' h
      unfold notion_find_page_by_canvas_id
      rw [if_pos h401, h]
      dsimp only
      constructor
      · split <;> rfl
      · intro hge
        rw [if_pos hge]
    · intro h
      unfold notion_find_page_by_canvas_id
      rw [if_pos h401, h]
      exact ⟨rfl, rfl⟩
  · intro hne
    unfold notion_find_page_by_canvas_id
    rw [if_neg hne]
    split <;> simp [isRefreshCall]
  · intro r hok
    unfold notion_create_or_update
    rcases hfind : notion_find_page_by_canvas_id w (toString aid) td with ⟨t₁, found⟩
    rw [hfind] at hok
    dsimp only at hok ⊢
    subst hok
    cases r with
    | none =>
        refine ⟨?_, ?_, ?_⟩
        · simp [isRefreshCall]
        · intro pid hps
          exact absurd hps (by simp)
        · intro _ hge
          simp [if_pos hge]
    | some pid =>
        refine ⟨?_, ?_, ?_⟩
        · simp [isRefreshCall]
        · intro pid₂ hps hge
          simp [if_pos hge]
        · intro hn
          exact absurd hn (by simp)

/-- Witness for C9 amended: a concrete world where the query gets a 401,
the refresh succeeds and the retried query also fails — the trace is
exactly query, refresh, retried query, and the retry's failure is
surfaced. -/
theorem C9_single_refresh_on_query_witness :
    (notion_find_page_by_canvas_id
        ⟨fun t => if t = "new" then 500 else 401, fun _ _ => none, fun _ => 200, fun _ => 200,
          fun _ => some ⟨"new", "ref2"⟩⟩ "7" ⟨"old", "ref"⟩).1 =
      [.queryCall "old", .refreshCall, .queryCall "new"] ∧
    (notion_find_page_by_canvas_id
        ⟨fun t => if t = "new" then 500 else 401, fun _ _ => none, fun _ => 200, fun _ => 200,
          fun _ => some ⟨"new", "ref2"⟩⟩ "7" ⟨"old", "ref"⟩).2 = .error 500 := by
  have h := ((C9_single_refresh_on_query
    ⟨fun t => if t = "new" then 500 else 401, fun _ _ => none, fun _ => 200, fun _ => 200,
      fun _ => some ⟨"new", "ref2"⟩⟩ "7" 7 ⟨"old", "ref"⟩).1 (by decide)).2.1
    ⟨"new", "ref2"⟩ rfl
  exact ⟨h.1, h.2 (by decide)⟩

/-! ## Pagination lemmas and C4 -/

theorem get_existing_eq_foldl (chunks : List (List NotionPage)) (m : List (String × Nat)) :
    get_existing_notion_assignments chunks m = chunks.flatten.foldl processPage m := by
  induction chunks generalizing m with
  | nil => rfl
  | cons chunk rest ih =>
      simp [get_existing_notion_assignments, List.flatten, List.foldl_append, ih]

theorem mem_keys_foldl_processPage (s : List NotionPage) (m : List (String × Nat))
    (cid : String) :
    cid ∈ dictKeys (s.foldl processPage m) ↔
      cid ∈ dictKeys m ∨ ∃ p ∈ s, pageCanvasId p = some cid := by
  induction s generalizing m with
  | nil => simp
  | cons p rest ih =>
      simp only [List.foldl_cons, ih, List.mem_cons]
      cases h : pageCanvasId p with
      | none =>
          simp only [processPage, h]
          constructor
          · rintro (hm | ⟨q, hq, hcid⟩)
            · exact Or.inl hm
            · exact Or.inr ⟨q, Or.inr hq, hcid⟩
          · rintro (hm | ⟨q, (rfl | hq), hcid⟩)
            · exact Or.inl hm
            · rw [h] at hcid
              exact Option.noConfusion hcid
            · exact Or.inr ⟨q, hq, hcid⟩
      | some c =>
          simp only [processPage, h, mem_dictKeys_insert]
          constructor
          · rintro ((hm | rfl) | ⟨q, hq, hcid⟩)
            · exact Or.inl hm
            · exact Or.inr ⟨p, Or.inl rfl, h⟩
            · exact Or.inr ⟨q, Or.inr hq, hcid⟩
          · rintro (hm | ⟨q, (rfl | hq), hcid⟩)
            · exact Or.inl (Or.inl hm)
            · rw [h] at hcid
              exact Or.inl (Or.inr (Option.some.inj hcid).symm)
            · exact Or.inr ⟨q, hq, hcid⟩

theorem length_foldl_processPage (s : List NotionPage) (m : List (String × Nat))
    (hsome : ∀ p ∈ s, (pageCanvasId p).isSome)
    (hnodup : (s.filterMap pageCanvasId).Nodup)
    (hfresh : ∀ p ∈ s, ∀ cid, pageCanvasId p = some cid → cid ∉ dictKeys m) :
    (s.foldl processPage m).length = m.length + s.length := by
  induction s generalizing m with
  | nil => simp
  | cons p rest ih =>
      obtain ⟨c, hc⟩ := Option.isSome_iff_exists.mp (hsome p (List.mem_cons_self p rest))
      have hcnotin : c ∉ dictKeys m := hfresh p (List.mem_cons_self p rest) c hc
      have hfm : (p :: rest).filterMap pageCanvasId = c :: rest.filterMap pageCanvasId := by
        simp [List.filterMap_cons, hc]
      rw [hfm] at hnodup
      have hcnotrest : c ∉ rest.filterMap pageCanvasId := (List.nodup_cons.mp hnodup).1
      have step : processPage m p = dictInsert m c p.pageId := by
        simp [processPage, hc]
      rw [List.foldl_cons, step,
        ih (dictInsert m c p.pageId)
          (fun q hq => hsome q (List.mem_cons_of_mem _ hq))
          (List.nodup_cons.mp hnodup).2
          ?_,
        length_dictInsert_of_not_mem m c p.pageId hcnotin]
      · simp [List.length_cons]
        omega
      · intro q hq cid hcid hmem
        rcases (mem_dictKeys_insert m c cid p.pageId).mp hmem with hold | rfl
        · exact hfresh q (List.mem_cons_of_mem _ hq) cid hcid hold
        · exact hcnotrest (List.mem_filterMap.mpr ⟨q, hq, hcid⟩)

/-- **C4.** `get_existing_notion_assignments` follows the cursor protocol
to the end and accumulates every page of every chunk into the one index
before returning: every record carrying a Canvas ID has an entry, and
when all records carry distinct Canvas IDs the index has exactly one
entry per record (so 100/100/7-record pages give exactly 207 entries). -/
theorem C4_pagination_completeness (chunks : List (List NotionPage))
    (hsome : ∀ p ∈ chunks.flatten, (pageCanvasId p).isSome)
    (hnodup : (chunks.flatten.filterMap pageCanvasId).Nodup) :
    (get_existing_notion_assignments chunks []).length = chunks.flatten.length ∧
    (∀ p ∈ chunks.flatten, ∀ cid, pageCanvasId p = some cid →
      cid ∈ dictKeys (get_existing_notion_assignments chunks [])) := by
  rw [get_existing_eq_foldl]
  constructor
  · simpa using length_foldl_processPage chunks.flatten [] hsome hnodup (by simp)
  · intro p hp cid hcid
    exact (mem_keys_foldl_processPage chunks.flatten [] cid).mpr (Or.inr ⟨p, hp, hcid⟩)

/-- A target-store row holding `i` as its Canvas ID. -/
def pageNum (i : Nat) : NotionPage :=
  ⟨i, [("Canvas ID", .richText [toString i])]⟩

/-- The paginated store of the claim: three pages of 100, 100 and 7
records with pairwise distinct Canvas IDs. -/
def chunks100_100_7 : List (List NotionPage) :=
  [(List.range 100).map pageNum,
   (List.range 100).map (fun i => pageNum (100 + i)),
   (List.range 7).map (fun i => pageNum (200 + i))]

set_option maxRecDepth 100000 in
/-- Witness for C4: the 3-page 100/100/7 store yields an IdentityIndex
of exactly 207 entries. -/
theorem C4_pagination_completeness_witness :
    (get_existing_notion_assignments chunks100_100_7 []).length = 207 := by
  rw [(C4_pagination_completeness chunks100_100_7 (by decide) (by decide)).1]
  decide

/-! ## Run counters and C5 -/

/-- All assignments a run processes, across its courses, in order. -/
def allItems (courses : List Course) : List Assignment :=
  (courses.map Course.assignments).flatten

/-- Number of records in the store carrying a given Canvas ID. -/
def cidCount (store : List NotionPage) (cid : String) : Nat :=
  store.countP (fun p => pageCanvasId p == some cid)

theorem syncStep_of_found (env : SyncEnv) (index : List (String × Nat)) (course_id : Nat)
    (course_name : String) (st : SyncState) (a : Assignment) (pid : Nat)
    (h : dictLookup index (toString a.id) = some pid) :
    syncStep env index course_id course_name st a =
      if env.updateOk a.id then
        ⟨applyUpdate st.store pid (mkAssignmentData course_name (env.subs course_id a.id) a),
         st.total + 1, st.created, st.updated + 1,
         st.trace ++ [.updateOp pid (toString a.id)]⟩
      else
        ⟨st.store, st.total + 1, st.created, st.updated,
         st.trace ++ [.updateOp pid (toString a.id)]⟩ := by
  unfold syncStep
  dsimp only
  rw [h]

theorem syncStep_of_not_found (env : SyncEnv) (index : List (String × Nat)) (course_id : Nat)
    (course_name : String) (st : SyncState) (a : Assignment)
    (h : dictLookup index (toString a.id) = none) :
    syncStep env index course_id course_name st a =
      if env.createOk a.id then
        ⟨st.store ++ [createPage (freshPageId st.store)
            (mkAssignmentData course_name (env.subs course_id a.id) a)],
         st.total + 1, st.created + 1, st.updated,
         st.trace ++ [.createOp (toString a.id)]⟩
      else
        ⟨st.store, st.total + 1, st.created, st.updated,
         st.trace ++ [.createOp (toString a.id)]⟩ := by
  unfold syncStep
  dsimp only
  rw [h]

theorem syncStep_total (env : SyncEnv) (index : List (String × Nat)) (course_id : Nat)
    (course_name : String) (st : SyncState) (a : Assignment) :
    (syncStep env index course_id course_name st a).total = st.total + 1 := by
  cases hd : dictLookup index (toString a.id) with
  | none =>
      rw [syncStep_of_not_found env index course_id course_name st a hd]
      split <;> rfl
  | some pid =>
      rw [syncStep_of_found env index course_id course_name st a pid hd]
      split <;> rfl

theorem runItems_total (env : SyncEnv) (index : List (String × Nat)) (course_id : Nat)
    (course_name : String) (st : SyncState) (items : List Assignment) :
    (runItems env index course_id course_name st items).total = st.total + items.length := by
  induction items generalizing st with
  | nil => simp [runItems]
  | cons a tl ih =>
      show (runItems env index course_id course_name (syncStep env index course_id course_name st a) tl).total = _
      rw [ih, syncStep_total]
      simp
      omega

theorem runCourses_total (env : SyncEnv) (index : List (String × Nat)) (st : SyncState)
    (courses : List Course) :
    (runCourses env index st courses).total = st.total + (allItems courses).length := by
  induction courses generalizing st with
  | nil => simp [runCourses, allItems]
  | cons c tl ih =>
      show (runCourses env index (runItems env index c.id c.name st c.assignments) tl).total = _
      rw [ih, runItems_total]
      simp [allItems]
      omega

/-- Oracle for the claim's scenario: the create call fails for the item
with id 2 and succeeds for every other item; updates succeed; no
submission signals. -/
def envItem2Fails : SyncEnv :=
  ⟨fun n => n != 2, fun _ => true, fun _ _ => none⟩

/-- The claim's source: one course with three items, ids 1, 2, 3. -/
def courseThreeItems : Course :=
  ⟨1, "math", [⟨1, "a1", none, none, "u1", ""⟩, ⟨2, "a2", none, none, "u2", ""⟩,
    ⟨3, "a3", none, none, "u3", ""⟩]⟩

/-- **C5 counterexample.** The run summary of `sync_assignments` carries
only `total`, `created` and `updated`: for the 3-item run in which only
item 2 fails on create, `created = 2` as claimed, but the summary has no
`failed` counter at all. -/
theorem C5_no_failed_counter :
    "failed" ∉ dictKeys (runSummary (runSync envItem2Fails [] [courseThreeItems])) ∧
    (runSync envItem2Fails [] [courseThreeItems]).created = 2 := by
  decide

/-- **C5 amended.** A failed create or update does not abort the run:
every item of every scope is always processed (`total` always equals the
number of items), and the engine reports the summary counters `total`,
`created` and `updated` (there is no `failed` counter; failures are the
remainder).  In the 3-item run where only item 2 fails on create, items
1 and 3 are still created (`created = 2`, store holds their records and
none for item 2) and `total = 3`, `updated = 0`. -/
theorem C5_partial_failure_resilience :
    (∀ (env : SyncEnv) (store : List NotionPage) (courses : List Course),
      (runSync env store courses).total = (allItems courses).length ∧
      dictKeys (runSummary (runSync env store courses)) = ["total", "created", "updated"]) ∧
    ((runSync envItem2Fails [] [courseThreeItems]).total = 3 ∧
     (runSync envItem2Fails [] [courseThreeItems]).created = 2 ∧
     (runSync envItem2Fails [] [courseThreeItems]).updated = 0 ∧
     cidCount (runSync envItem2Fails [] [courseThreeItems]).store "1" = 1 ∧
     cidCount (runSync envItem2Fails [] [courseThreeItems]).store "2" = 0 ∧
     cidCount (runSync envItem2Fails [] [courseThreeItems]).store "3" = 1) := by
  constructor
  · intro env store courses
    constructor
    · show (runCourses env (buildIndex store) ⟨store, 0, 0, 0, []⟩ courses).total = _
      rw [runCourses_total]
      simp
    · rfl
  · refine ⟨by decide, by decide, by decide, by decide, by decide, by decide⟩

/-! ## Canvas-ID counting lemmas and C2 -/

theorem patchProps_updateProps_canvasId (props : List (String × PropValue))
    (d : AssignmentData) :
    dictLookup (patchProps props (updateProps d)) "Canvas ID" =
      dictLookup props "Canvas ID" := by
  show dictLookup
    (dictInsert (dictInsert props "Status" (.select d.status)) "Due Date" (.date d.due_date))
    "Canvas ID" = _
  rw [dictLookup_insert_ne _ _ _ _ (by decide), dictLookup_insert_ne _ _ _ _ (by decide)]

theorem pageCanvasId_patch (p : NotionPage) (d : AssignmentData) :
    pageCanvasId ⟨p.pageId, patchProps p.props (updateProps d)⟩ = pageCanvasId p := by
  unfold pageCanvasId
  rw [patchProps_updateProps_canvasId]

theorem pageCanvasId_createPage (pid : Nat) (d : AssignmentData) :
    pageCanvasId (createPage pid d) = some (toString d.id) := by
  rfl

theorem cidCount_applyUpdate (s : List NotionPage) (pid : Nat) (d : AssignmentData)
    (cid : String) : cidCount (applyUpdate s pid d) cid = cidCount s cid := by
  unfold cidCount applyUpdate
  rw [List.countP_map]
  apply List.countP_congr
  intro p hp
  simp only [Function.comp]
  by_cases h : p.pageId = pid
  · rw [if_pos h, pageCanvasId_patch]
  · rw [if_neg h]

theorem cidCount_append_create (s : List NotionPage) (pid : Nat) (d : AssignmentData)
    (cid : String) :
    cidCount (s ++ [createPage pid d]) cid =
      cidCount s cid + (if toString d.id = cid then 1 else 0) := by
  unfold cidCount
  rw [List.countP_append]
  congr 1
  rw [List.countP_cons]
  simp [pageCanvasId_createPage]

/-- The Canvas-ID strings of a list of items, in processing order. -/
def itemCids (items : List Assignment) : List String :=
  items.map (fun a => toString a.id)

/-- The Canvas-ID strings of one whole run. -/
def runCids (courses : List Course) : List String :=
  itemCids (allItems courses)

theorem runItems_unique (env : SyncEnv) (index : List (String × Nat)) (course_id : Nat)
    (course_name : String) (items : List Assignment) (rest : List String) (st : SyncState)
    (hnd : (itemCids items ++ rest).Nodup)
    (hle : ∀ cid, cidCount st.store cid ≤ 1)
    (hzero : ∀ cid ∈ itemCids items ++ rest, cid ∉ dictKeys index → cidCount st.store cid = 0) :
    (∀ cid, cidCount (runItems env index course_id course_name st items).store cid ≤ 1) ∧
    (∀ cid ∈ rest, cid ∉ dictKeys index →
      cidCount (runItems env index course_id course_name st items).store cid = 0) := by
  induction items generalizing st with
  | nil => exact ⟨hle, fun cid hc => hzero cid (by simpa [itemCids] using hc)⟩
  | cons a tl ih =>
      have hcons : itemCids (a :: tl) = toString a.id :: itemCids tl := rfl
      rw [hcons, List.cons_append, List.nodup_cons] at hnd
      have hrun : runItems env index course_id course_name st (a :: tl) =
          runItems env index course_id course_name
            (syncStep env index course_id course_name st a) tl := rfl
      rw [hrun]
      cases hd : dictLookup index (toString a.id) with
      | some pid =>
          have hcount : ∀ cid,
              cidCount (syncStep env index course_id course_name st a).store cid =
                cidCount st.store cid := by
            intro cid
            rw [syncStep_of_found env index course_id course_name st a pid hd]
            split
            · exact cidCount_applyUpdate st.store pid _ cid
            · rfl
          exact ih _ hnd.2 (fun cid => hcount cid ▸ hle cid)
            (fun cid hc hnk => by
              rw [hcount cid]
              exact hzero cid (by simpa [hcons] using Or.inr hc) hnk)
      | none =>
          have hcanotin : toString a.id ∉ itemCids tl ++ rest := hnd.1
          have hca0 : cidCount st.store (toString a.id) = 0 :=
            hzero (toString a.id) (by simp [hcons]) ((dictLookup_eq_none_iff _ _).mp hd)
          have hcount : ∀ cid,
              cidCount (syncStep env index course_id course_name st a).store cid =
                cidCount st.store cid +
                  (if env.createOk a.id then (if toString a.id = cid then 1 else 0) else 0) := by
            intro cid
            rw [syncStep_of_not_found env index course_id course_name st a hd]
            split
            · show cidCount (st.store ++ [createPage (freshPageId st.store) _]) cid = _
              rw [cidCount_append_create]
              rfl
            · simp
          refine ih _ hnd.2 ?_ ?_
          · intro cid
            rw [hcount cid]
            by_cases heq : toString a.id = cid
            · subst heq
              rw [hca0]
              split <;> simp
            · simp only [if_neg heq]
              split <;> simpa using hle cid
          · intro cid hc hnk
            rw [hcount cid]
            have hne : toString a.id ≠ cid := by
              rintro rfl
              exact hcanotin hc
            rw [if_neg hne]
            split <;> simpa using hzero cid (by simpa [hcons] using Or.inr hc) hnk

theorem runCourses_unique (env : SyncEnv) (index : List (String × Nat)) (st : SyncState)
    (courses : List Course)
    (hnd : (runCids courses).Nodup)
    (hle : ∀ cid, cidCount st.store cid ≤ 1)
    (hzero : ∀ cid ∈ runCids courses, cid ∉ dictKeys index → cidCount st.store cid = 0) :
    ∀ cid, cidCount (runCourses env index st courses).store cid ≤ 1 := by
  induction courses generalizing st with
  | nil => exact hle
  | cons c tl ih =>
      have hcids : runCids (c :: tl) = itemCids c.assignments ++ runCids tl := by
        simp [runCids, allItems, itemCids]
      rw [hcids] at hnd hzero
      have hrun : runCourses env index st (c :: tl) =
          runCourses env index (runItems env index c.id c.name st c.assignments) tl := rfl
      rw [hrun]
      have h := runItems_unique env index c.id c.name c.assignments (runCids tl) st hnd hle hzero
      exact ih _ ((List.nodup_append.mp hnd).2.1) h.1 h.2

theorem runSync_unique (env : SyncEnv) (store : List NotionPage) (courses : List Course)
    (h₀ : ∀ cid, cidCount store cid ≤ 1)
    (hnd : (runCids courses).Nodup) :
    ∀ cid, cidCount (runSync env store courses).store cid ≤ 1 := by
  apply runCourses_unique env (buildIndex store) ⟨store, 0, 0, 0, []⟩ courses hnd h₀
  intro cid _ hnk
  by_contra hne
  have hpos : 0 < cidCount store cid := Nat.pos_of_ne_zero hne
  obtain ⟨p, hp, hpred⟩ := List.countP_pos_iff.mp hpos
  have hcid : pageCanvasId p = some cid := by simpa using hpred
  have : cid ∈ dictKeys (buildIndex store) := by
    have hfold : buildIndex store = store.foldl processPage [] := rfl
    rw [hfold]
    exact (mem_keys_foldl_processPage store [] cid).mpr (Or.inr ⟨p, hp, hcid⟩)
  exact hnk this

/-- **C2 counterexample.** The IdentityIndex is never extended during a
run, so a single run whose source sequence carries the same identity
twice (id 7 appearing in two items) performs **two** creates for it: the
target store ends up with two records carrying Canvas ID `"7"`. -/
theorem C2_duplicate_identity_double_create :
    cidCount (runSync ⟨fun _ => true, fun _ => true, fun _ _ => none⟩ []
      [⟨1, "c", [⟨7, "hw", none, none, "u", ""⟩, ⟨7, "hw2", none, none, "u2", ""⟩]⟩]).store
      "7" = 2 ∧
    ¬ cidCount (runSync ⟨fun _ => true, fun _ => true, fun _ _ => none⟩ []
      [⟨1, "c", [⟨7, "hw", none, none, "u", ""⟩, ⟨7, "hw2", none, none, "u2", ""⟩]⟩]).store
      "7" ≤ 1 := by
  refine ⟨by decide, by decide⟩

/-- **C2 amended.** Provided every run's source sequence carries each
identity at most once (pairwise distinct Canvas IDs within a run —
across runs repetition is exactly the upsert case), any sequence of runs
starting from a store with at most one record per identity preserves
that invariant: the engine never creates a record for an identity the
index already knows, and updates never change a record's Canvas ID. -/
theorem C2_uniqueness_invariant (runs : List (SyncEnv × List Course))
    (store₀ : List NotionPage)
    (h₀ : ∀ cid, cidCount store₀ cid ≤ 1)
    (hnd : ∀ r ∈ runs, (runCids r.2).Nodup) :
    ∀ cid, cidCount (runs.foldl (fun s r => (runSync r.1 s r.2).store) store₀) cid ≤ 1 := by
  induction runs generalizing store₀ with
  | nil => exact h₀
  | cons r tl ih =>
      exact ih (runSync r.1 store₀ r.2).store
        (runSync_unique r.1 store₀ r.2 h₀ (hnd r (List.mem_cons_self r tl)))
        (fun q hq => hnd q (List.mem_cons_of_mem r hq))

/-- Witness for C2 amended: two consecutive runs of the 3-item course
over an empty store leave at most one record per identity. -/
theorem C2_uniqueness_invariant_witness :
    cidCount ([(envItem2Fails, [courseThreeItems]),
        (envItem2Fails, [courseThreeItems])].foldl
      (fun s r => (runSync r.1 s r.2).store) []) "1" ≤ 1 :=
  C2_uniqueness_invariant [(envItem2Fails, [courseThreeItems]),
      (envItem2Fails, [courseThreeItems])] []
    (fun _ => Nat.zero_le 1) (by decide) "1"

/-! ## Presence lemmas and C1 -/

/-- Some record of the store carries the given Canvas ID. -/
def hasCid (store : List NotionPage) (cid : String) : Prop :=
  ∃ p ∈ store, pageCanvasId p = some cid

theorem hasCid_applyUpdate (s : List NotionPage) (pid : Nat) (d : AssignmentData)
    (cid : String) (h : hasCid s cid) : hasCid (applyUpdate s pid d) cid := by
  obtain ⟨p, hp, hc⟩ := h
  refine ⟨if p.pageId = pid then ⟨p.pageId, patchProps p.props (updateProps d)⟩ else p,
    List.mem_map.mpr ⟨p, hp, rfl⟩, ?_⟩
  by_cases hpp : p.pageId = pid
  · rw [if_pos hpp, pageCanvasId_patch]
    exact hc
  · rw [if_neg hpp]
    exact hc

theorem hasCid_syncStep (env : SyncEnv) (index : List (String × Nat)) (course_id : Nat)
    (course_name : String) (st : SyncState) (a : Assignment) (cid : String)
    (h : hasCid st.store cid) :
    hasCid (syncStep env index course_id course_name st a).store cid := by
  cases hd : dictLookup index (toString a.id) with
  | some pid =>
      rw [syncStep_of_found env index course_id course_name st a pid hd]
      split
      · exact hasCid_applyUpdate st.store pid _ cid h
      · exact h
  | none =>
      rw [syncStep_of_not_found env index course_id course_name st a hd]
      split
      · obtain ⟨p, hp, hc⟩ := h
        exact ⟨p, List.mem_append.mpr (Or.inl hp), hc⟩
      · exact h

theorem syncStep_makes_present (env : SyncEnv) (index : List (String × Nat)) (course_id : Nat)
    (course_name : String) (st : SyncState) (a : Assignment)
    (hC : env.createOk a.id = true)
    (hI : ∀ cid ∈ dictKeys index, hasCid st.store cid) :
    hasCid (syncStep env index course_id course_name st a).store (toString a.id) := by
  cases hd : dictLookup index (toString a.id) with
  | some pid =>
      have hmem : toString a.id ∈ dictKeys index := by
        have hiff := dictLookup_isSome_iff index (toString a.id)
        rw [hd] at hiff
        exact hiff.mp rfl
      exact hasCid_syncStep env index course_id course_name st a _ (hI _ hmem)
  | none =>
      rw [syncStep_of_not_found env index course_id course_name st a hd, if_pos hC]
      exact ⟨createPage (freshPageId st.store)
          (mkAssignmentData course_name (env.subs course_id a.id) a),
        List.mem_append.mpr (Or.inr (List.mem_singleton.mpr rfl)),
        pageCanvasId_createPage _ _⟩

theorem hasCid_runItems (env : SyncEnv) (index : List (String × Nat)) (course_id : Nat)
    (course_name : String) (st : SyncState) (items : List Assignment) (cid : String)
    (h : hasCid st.store cid) :
    hasCid (runItems env index course_id course_name st items).store cid := by
  induction items generalizing st with
  | nil => exact h
  | cons a tl ih =>
      exact ih (syncStep env index course_id course_name st a)
        (hasCid_syncStep env index course_id course_name st a cid h)

theorem hasCid_runCourses (env : SyncEnv) (index : List (String × Nat)) (st : SyncState)
    (courses : List Course) (cid : String) (h : hasCid st.store cid) :
    hasCid (runCourses env index st courses).store cid := by
  induction courses generalizing st with
  | nil => exact h
  | cons c tl ih =>
      exact ih (runItems env index c.id c.name st c.assignments)
        (hasCid_runItems env index c.id c.name st c.assignments cid h)

theorem runItems_all_present (env : SyncEnv) (index : List (String × Nat)) (course_id : Nat)
    (course_name : String) (items : List Assignment) (st : SyncState)
    (hC : ∀ n, env.createOk n = true)
    (hI : ∀ cid ∈ dictKeys index, hasCid st.store cid) :
    (∀ cid ∈ dictKeys index, hasCid (runItems env index course_id course_name st items).store cid) ∧
    (∀ a ∈ items, hasCid (runItems env index course_id course_name st items).store (toString a.id)) := by
  induction items generalizing st with
  | nil => exact ⟨hI, by simp⟩
  | cons a tl ih =>
      have hI' : ∀ cid ∈ dictKeys index,
          hasCid (syncStep env index course_id course_name st a).store cid :=
        fun cid hc => hasCid_syncStep env index course_id course_name st a cid (hI cid hc)
      have ha : hasCid (syncStep env index course_id course_name st a).store (toString a.id) :=
        syncStep_makes_present env index course_id course_name st a (hC a.id) hI
      obtain ⟨h1, h2⟩ := ih (syncStep env index course_id course_name st a) hI'
      refine ⟨h1, ?_⟩
      intro b hb
      rcases List.mem_cons.mp hb with rfl | hb
      · exact hasCid_runItems env index course_id course_name _ tl _ ha
      · exact h2 b hb

theorem runCourses_all_present (env : SyncEnv) (index : List (String × Nat)) (st : SyncState)
    (courses : List Course)
    (hC : ∀ n, env.createOk n = true)
    (hI : ∀ cid ∈ dictKeys index, hasCid st.store cid) :
    (∀ cid ∈ dictKeys index, hasCid (runCourses env index st courses).store cid) ∧
    (∀ a ∈ allItems courses, hasCid (runCourses env index st courses).store (toString a.id)) := by
  induction courses generalizing st with
  | nil => exact ⟨hI, by simp [allItems]⟩
  | cons c tl ih =>
      have hitems := runItems_all_present env index c.id c.name c.assignments st hC hI
      obtain ⟨h1, h2⟩ := ih (runItems env index c.id c.name st c.assignments) hitems.1
      refine ⟨h1, ?_⟩
      intro a ha
      have : a ∈ c.assignments ++ allItems tl := by simpa [allItems] using ha
      rcases List.mem_append.mp this with h | h
      · exact hasCid_runCourses env index _ tl _ (hitems.2 a h)
      · exact h2 a h

theorem syncStep_update_branch (env : SyncEnv) (index : List (String × Nat)) (course_id : Nat)
    (course_name : String) (st : SyncState) (a : Assignment)
    (h : toString a.id ∈ dictKeys index) :
    ∃ pid,
      (syncStep env index course_id course_name st a).trace =
        st.trace ++ [.updateOp pid (toString a.id)] ∧
      (syncStep env index course_id course_name st a).created = st.created := by
  have hs : (dictLookup index (toString a.id)).isSome := (dictLookup_isSome_iff _ _).mpr h
  obtain ⟨pid, hd⟩ := Option.isSome_iff_exists.mp hs
  refine ⟨pid, ?_, ?_⟩ <;>
    · rw [syncStep_of_found env index course_id course_name st a pid hd]
      split <;> rfl

theorem runItems_no_creates (env : SyncEnv) (index : List (String × Nat)) (course_id : Nat)
    (course_name : String) (items : List Assignment) (st : SyncState)
    (hall : ∀ a ∈ items, toString a.id ∈ dictKeys index) :
    (runItems env index course_id course_name st items).trace.countP isCreateOp =
      st.trace.countP isCreateOp ∧
    (runItems env index course_id course_name st items).created = st.created ∧
    (runItems env index course_id course_name st items).trace.countP isUpdateOp =
      st.trace.countP isUpdateOp + items.length := by
  induction items generalizing st with
  | nil => exact ⟨rfl, rfl, by simp [runItems]⟩
  | cons a tl ih =>
      obtain ⟨pid, htrace, hcreated⟩ :=
        syncStep_update_branch env index course_id course_name st a
          (hall a (List.mem_cons_self a tl))
      obtain ⟨h1, h2, h3⟩ := ih (syncStep env index course_id course_name st a)
        (fun b hb => hall b (List.mem_cons_of_mem a hb))
      refine ⟨?_, ?_, ?_⟩
      · rw [show (runItems env index course_id course_name st (a :: tl)) =
            runItems env index course_id course_name
              (syncStep env index course_id course_name st a) tl from rfl, h1, htrace,
          List.countP_append]
        simp [isCreateOp]
      · rw [show (runItems env index course_id course_name st (a :: tl)) =
            runItems env index course_id course_name
              (syncStep env index course_id course_name st a) tl from rfl, h2, hcreated]
      · rw [show (runItems env index course_id course_name st (a :: tl)) =
            runItems env index course_id course_name
              (syncStep env index course_id course_name st a) tl from rfl, h3, htrace,
          List.countP_append]
        simp [isUpdateOp]
        omega

theorem runCourses_no_creates (env : SyncEnv) (index : List (String × Nat)) (st : SyncState)
    (courses : List Course)
    (hall : ∀ a ∈ allItems courses, toString a.id ∈ dictKeys index) :
    (runCourses env index st courses).trace.countP isCreateOp = st.trace.countP isCreateOp ∧
    (runCourses env index st courses).created = st.created ∧
    (runCourses env index st courses).trace.countP isUpdateOp =
      st.trace.countP isUpdateOp + (allItems courses).length := by
  induction courses generalizing st with
  | nil => exact ⟨rfl, rfl, by simp [allItems, runCourses]⟩
  | cons c tl ih =>
      have hsplit : ∀ a ∈ c.assignments, toString a.id ∈ dictKeys index := by
        intro a ha
        exact hall a (by simp [allItems, ha])
      obtain ⟨h1, h2, h3⟩ := runItems_no_creates env index c.id c.name c.assignments st hsplit
      obtain ⟨g1, g2, g3⟩ := ih (runItems env index c.id c.name st c.assignments)
        (fun a ha => hall a (by simp [allItems] at ha ⊢; exact Or.inr ha))
      refine ⟨?_, ?_, ?_⟩
      · rw [show (runCourses env index st (c :: tl)) =
            runCourses env index (runItems env index c.id c.name st c.assignments) tl from rfl,
          g1, h1]
      · rw [show (runCourses env index st (c :: tl)) =
            runCourses env index (runItems env index c.id c.name st c.assignments) tl from rfl,
          g2, h2]
      · rw [show (runCourses env index st (c :: tl)) =
            runCourses env index (runItems env index c.id c.name st c.assignments) tl from rfl,
          g3, h3]
        have : (allItems (c :: tl)).length = c.assignments.length + (allItems tl).length := by
          simp [allItems]
        omega

/-- **C1.** Idempotence of the reconciliation: if the first run's create
calls all succeed, then a second run over the same source collections —
its IdentityIndex rebuilt from the target store left by the first run —
performs zero create operations: every item's identity is found in the
rebuilt index, every item is routed to update (one PATCH per item), and
the created-counter stays 0. -/
theorem C1_second_run_creates_nothing (env₁ env₂ : SyncEnv) (store : List NotionPage)
    (courses : List Course)
    (hC : ∀ n, env₁.createOk n = true) :
    ((runSync env₂ (runSync env₁ store courses).store courses).trace.countP isCreateOp = 0) ∧
    ((runSync env₂ (runSync env₁ store courses).store courses).created = 0) ∧
    ((runSync env₂ (runSync env₁ store courses).store courses).trace.countP isUpdateOp =
      (allItems courses).length) := by
  have hI₀ : ∀ cid ∈ dictKeys (buildIndex store), hasCid store cid := by
    intro cid hcid
    have hfold : buildIndex store = store.foldl processPage [] := rfl
    rw [hfold] at hcid
    rcases (mem_keys_foldl_processPage store [] cid).mp hcid with h | h
    · simp at h
    · exact h
  have hpresent : ∀ a ∈ allItems courses,
      hasCid (runSync env₁ store courses).store (toString a.id) :=
    (runCourses_all_present env₁ (buildIndex store) ⟨store, 0, 0, 0, []⟩ courses hC hI₀).2
  have hall : ∀ a ∈ allItems courses,
      toString a.id ∈ dictKeys (buildIndex (runSync env₁ store courses).store) := by
    intro a ha
    have hfold : buildIndex (runSync env₁ store courses).store =
        (runSync env₁ store courses).store.foldl processPage [] := rfl
    rw [hfold]
    exact (mem_keys_foldl_processPage _ [] _).mpr (Or.inr (hpresent a ha))
  have h := runCourses_no_creates env₂ (buildIndex (runSync env₁ store courses).store)
    ⟨(runSync env₁ store courses).store, 0, 0, 0, []⟩ courses hall
  simpa using h

/-- Witness for C1: a concrete first run (all creates succeed) followed
by a second run performs zero creates and routes both items to update. -/
theorem C1_second_run_creates_nothing_witness :
    ((runSync ⟨fun _ => true, fun _ => false, fun _ _ => none⟩
        (runSync ⟨fun _ => true, fun _ => true, fun _ _ => none⟩ []
          [⟨1, "c", [⟨4, "a", none, none, "u", ""⟩, ⟨9, "b", none, none, "v", ""⟩]⟩]).store
        [⟨1, "c", [⟨4, "a", none, none, "u", ""⟩, ⟨9, "b", none, none, "v", ""⟩]⟩]).trace.countP
      isCreateOp = 0) ∧
    ((runSync ⟨fun _ => true, fun _ => false, fun _ _ => none⟩
        (runSync ⟨fun _ => true, fun _ => true, fun _ _ => none⟩ []
          [⟨1, "c", [⟨4, "a", none, none, "u", ""⟩, ⟨9, "b", none, none, "v", ""⟩]⟩]).store
        [⟨1, "c", [⟨4, "a", none, none, "u", ""⟩, ⟨9, "b", none, none, "v", ""⟩]⟩]).created = 0) := by
  have h := C1_second_run_creates_nothing
    ⟨fun _ => true, fun _ => true, fun _ _ => none⟩
    ⟨fun _ => true, fun _ => false, fun _ _ => none⟩ []
    [⟨1, "c", [⟨4, "a", none, none, "u", ""⟩, ⟨9, "b", none, none, "v", ""⟩]⟩]
    (fun _ => rfl)
  exact ⟨h.1, h.2.1⟩
